import Mathlib

/-!
Verification of the adaptive Monte-Carlo permutation-test engine
(`t/exact_test.py`, `t/exact_test_sampler.py`).

Shallow embedding conventions:
* Python floats (statistic values, `eps`, CSM levels, `probability_a_lower`)
  are modelled as exact rationals `ℚ`.
* Python dicts are modelled as insertion-ordered association lists
  (`List (String × α)`), with `dictInsert` reproducing Python's
  "update value in place, else append" semantics.
* The opaque native kernels (`csm`, the statistic functions, `math.log`)
  are parameters of the embedding, as the spec declares them opaque.
* Fallible Python code (KeyError, ZeroDivisionError, cffi OverflowError,
  math domain error) is modelled with `Except String`.
-/

set_option linter.unusedVariables false

namespace ExactTest

/-- A statistic descriptor, mirroring the `Statistic` namedtuple. -/
structure Statistic where
  name : String
  probability_a_lower : ℚ
  a_offset : ℤ
  b_offset : ℤ
  fn_name : String
  fn_args : List ℚ
deriving DecidableEq

/-- The `Result` namedtuple.  In the source the `judgement` field starts
out as `None` but every `Result` stored in the result map has it replaced
by an integer, so we model it as `ℤ`. -/
structure Result where
  actual_value : ℚ
  judgement : ℤ
  m : ℕ
  n : ℕ
  num_trials : ℕ
deriving DecidableEq

/-- The `ResultAccumulator` namedtuple (defaults `(0, 0, 0)`). -/
structure Accumulator where
  trials : ℕ
  lte_actual : ℕ
  gte_actual : ℕ
deriving DecidableEq

/-- Type of the opaque `csm(trials, eps, actual_count, log_inner_eps)`
primitive: returns `(significant?, level)`. -/
abbrev Csm := ℕ → ℚ → ℕ → ℚ → Bool × ℚ

/-- Python dict assignment `d[k] = v`: replace the value in place if the
key is present (keeping its position), otherwise append the new binding. -/
def dictInsert {α : Type} (d : List (String × α)) (k : String) (v : α) :
    List (String × α) :=
  if (d.lookup k).isSome then
    d.map (fun p => if p.1 = k then (p.1, v) else p)
  else
    d ++ [(k, v)]

/-! ## Plan grouping (`_group_statistics_in_plan`) -/

/-- Inner level of the plan: `(a_offset, b_offset) → list of statistics`,
in key-insertion order. -/
abbrev InnerPlan := List ((ℤ × ℤ) × List Statistic)

/-- Two-level plan: `probability_a_lower → (a_offset, b_offset) → list`. -/
abbrev Plan := List (ℚ × InnerPlan)

/-- `plan[p_a_lower][offsets].append(stat)` on the inner defaultdict. -/
def innerInsert : InnerPlan → (ℤ × ℤ) → Statistic → InnerPlan
  | [], key, stat => [(key, [stat])]
  | (k, l) :: rest, key, stat =>
    if k = key then (k, l ++ [stat]) :: rest
    else (k, l) :: innerInsert rest key stat

/-- `plan[p_a_lower][offsets].append(stat)` on the outer defaultdict. -/
def planInsert : Plan → ℚ → (ℤ × ℤ) → Statistic → Plan
  | [], p, key, stat => [(p, innerInsert [] key stat)]
  | (q, inner) :: rest, p, key, stat =>
    if q = p then (q, innerInsert inner key stat) :: rest
    else (q, inner) :: planInsert rest p key stat

/-- `_group_statistics_in_plan`: groups statistics in a trie by
`probability_a_lower`, then by `(a_offset, b_offset)`.  (The final
`undefaultdict` conversion is the identity on the data.) -/
def group_statistics_in_plan (statistics : List Statistic) : Plan :=
  statistics.foldl
    (fun plan stat =>
      planInsert plan stat.probability_a_lower (stat.a_offset, stat.b_offset) stat)
    []

/-- All statistics stored in one inner level, in order. -/
def innerStats (inner : InnerPlan) : List Statistic :=
  inner.flatMap (fun kl => kl.2)

/-- All statistics stored in a plan, in order. -/
def planStats (plan : Plan) : List Statistic :=
  plan.flatMap (fun p => innerStats p.2)

/-! ## Parallel-generator batch sizing (`exact_test_sampler.py`) -/

def INITIAL_BATCH_SIZE : ℕ := 10

def MAX_BATCH_SIZE : ℕ := 100 * 1000

def BATCH_SIZE_GROWTH_FACTOR : ℕ := 2

/-- One iteration of the consumer loop of
`exact_test_sampler._generate_in_parallel`: after yielding values it
checks the pending futures, and if any worker completed it grows the
batch size geometrically, capped at `MAX_BATCH_SIZE`. -/
def batchSizeStep (batchSize : ℕ) (anyCompleted : Bool) : ℕ :=
  if anyCompleted then min (BATCH_SIZE_GROWTH_FACTOR * batchSize) MAX_BATCH_SIZE
  else batchSize

/-- Batch size after a sequence of consumer-loop iterations, each flagged
with whether some worker had completed; starts at `INITIAL_BATCH_SIZE`. -/
def batchSizeAfter (completions : List Bool) : ℕ :=
  completions.foldl batchSizeStep INITIAL_BATCH_SIZE

/-! ## `_significance_test` -/

/-- Log records.  The source formats these with `print`; we record the
data being printed (formatting is pure and lossless for our purposes). -/
inductive LogEvent where
  /-- The `"actual: %s" % actual_stats` line printed by `exact_test`. -/
  | actual (stats : List (String × ℚ))
  /-- The per-test progress line printed by `_significance_test`. -/
  | test (trials : ℕ) (name : String) (lte gte : ℕ) (level : ℚ)
      (monteCarloValue : ℚ) (actualValue : ℚ)
deriving DecidableEq

/-- `_significance_test`.  Performs the two CSM tests, prints the progress
line when a log sink is present, and writes a `Result` (returned here as
`some result`) when a statistically significant judgement is reached.
Python's `lte_actual / trials` raises `ZeroDivisionError` when
`trials == 0`; `ℚ`-division would silently return `0` there, so the zero
case is modelled explicitly as an error, exactly where Python would
evaluate the division. -/
def significance_test (csm : Csm) (eps : ℚ) (log_inner_eps : ℚ)
    (name : String) (monte_carlo_value : ℚ) (m n : ℕ) (actual : ℚ)
    (lte_actual gte_actual trials : ℕ) (log : Bool) :
    Except String (List LogEvent × Option Result) :=
  let ltRes := csm trials eps lte_actual log_inner_eps
  let gtRes := csm trials eps gte_actual log_inner_eps
  let evs : List LogEvent :=
    if log then
      [.test trials name lte_actual gte_actual (max ltRes.2 gtRes.2)
        monte_carlo_value actual]
    else []
  let partial_result : ℤ → Result := fun j => ⟨actual, j, m, n, trials⟩
  if ltRes.1 ∧ trials = 0 then .error "ZeroDivisionError"
  else if ltRes.1 ∧ (lte_actual : ℚ) / (trials : ℚ) < eps then
    .ok (evs, some (partial_result (-1)))
  else if gtRes.1 ∧ trials = 0 then .error "ZeroDivisionError"
  else if gtRes.1 ∧ (gte_actual : ℚ) / (trials : ℚ) < eps then
    .ok (evs, some (partial_result 1))
  else if ltRes.1 ∧ gtRes.1 then .ok (evs, some (partial_result 0))
  else .ok (evs, none)

/-- Variant of `significance_test` that examines the `gte` side before the
`lte` side, used to express that the order of the two tail checks cannot
influence the assigned judgement. -/
def significance_test_gt_first (csm : Csm) (eps : ℚ) (log_inner_eps : ℚ)
    (name : String) (monte_carlo_value : ℚ) (m n : ℕ) (actual : ℚ)
    (lte_actual gte_actual trials : ℕ) (log : Bool) :
    Except String (List LogEvent × Option Result) :=
  let ltRes := csm trials eps lte_actual log_inner_eps
  let gtRes := csm trials eps gte_actual log_inner_eps
  let evs : List LogEvent :=
    if log then
      [.test trials name lte_actual gte_actual (max ltRes.2 gtRes.2)
        monte_carlo_value actual]
    else []
  let partial_result : ℤ → Result := fun j => ⟨actual, j, m, n, trials⟩
  if gtRes.1 ∧ trials = 0 then .error "ZeroDivisionError"
  else if gtRes.1 ∧ (gte_actual : ℚ) / (trials : ℚ) < eps then
    .ok (evs, some (partial_result 1))
  else if ltRes.1 ∧ trials = 0 then .error "ZeroDivisionError"
  else if ltRes.1 ∧ (lte_actual : ℚ) / (trials : ℚ) < eps then
    .ok (evs, some (partial_result (-1)))
  else if ltRes.1 ∧ gtRes.1 then .ok (evs, some (partial_result 0))
  else .ok (evs, none)

/-- The spec's decision rule (§4.4), written from the spec's words, to be
compared with the source-derived `significance_test`:
−1 when the low side is significant and in the tail; else +1 when the
high side is significant and in the tail; 0 when both sides are
significant without either tail branch; otherwise undecided. -/
def specJudgement (lt_significant gt_significant : Bool)
    (lteFrac gteFrac eps : ℚ) : Option ℤ :=
  if lt_significant ∧ lteFrac < eps then some (-1)
  else if gt_significant ∧ gteFrac < eps then some 1
  else if lt_significant ∧ gt_significant then some 0
  else none

/-! ## The decision loop of `exact_test` -/

/-- `lte_actual`/`gte_actual`/`trials` update performed for each
`(name, stat)` pair of a resampled result mapping (`exact_test`,
the body of `for name, stat in sample.items()`). -/
def updateAccumulator (current : Accumulator) (stat actual : ℚ) : Accumulator :=
  let current :=
    if stat ≤ actual then { current with lte_actual := current.lte_actual + 1 }
    else current
  let current :=
    if stat ≥ actual then { current with gte_actual := current.gte_actual + 1 }
    else current
  { current with trials := current.trials + 1 }

/-- Per-sample accumulator updates.  `actual_stats[name]` raises
`KeyError` when a sample carries a name that was never a key of the
actual-statistics dict.  The accumulator dict has exactly the keys of
`actual_stats`, so it is modelled as a total function updated pointwise. -/
def processItems (actualStats : List (String × ℚ))
    (accs : String → Accumulator) :
    List (String × ℚ) → Except String (String → Accumulator)
  | [] => .ok accs
  | (name, stat) :: rest =>
    match actualStats.lookup name with
    | none => .error "KeyError"
    | some actual =>
      processItems actualStats
        (fun k => if k = name then updateAccumulator (accs name) stat actual
                  else accs k)
        rest

/-- The `for name, acc in accumulators.items()` sweep of `exact_test`:
names already present in `ret` are skipped, every other statistic is
submitted to `_significance_test` (whose `sample[name]` argument raises
`KeyError` when absent).  Returns the grown result list and the log
events printed during the sweep. -/
def runTests (csm : Csm) (eps log_inner_eps : ℚ) (log : Bool) (m n : ℕ)
    (sample : List (String × ℚ)) (accs : String → Accumulator) :
    List (String × ℚ) → List (String × Result) →
    Except String (List (String × Result) × List LogEvent)
  | [], ret => .ok (ret, [])
  | (name, actual) :: rest, ret =>
    if (ret.lookup name).isSome then
      runTests csm eps log_inner_eps log m n sample accs rest ret
    else
      match sample.lookup name with
      | none => .error "KeyError"
      | some monte_carlo_value =>
        match significance_test csm eps log_inner_eps name monte_carlo_value
            m n actual (accs name).lte_actual (accs name).gte_actual
            (accs name).trials log with
        | .error e => .error e
        | .ok (evs, res) =>
          let ret := match res with
            | some r => ret ++ [(name, r)]
            | none => ret
          match runTests csm eps log_inner_eps log m n sample accs rest ret with
          | .error e => .error e
          | .ok (ret', evs') => .ok (ret', evs ++ evs')

/-- State of the decision loop of `exact_test`. -/
structure LoopState where
  accs : String → Accumulator
  ret : List (String × Result)
  seen : ℕ
  testEvery : ℕ
  events : List LogEvent
  finished : Option (List (String × Result))

/-- Erases the log-event component of a loop state; used to express that
logging influences nothing else. -/
def stripEvents (st : LoopState) : LoopState := { st with events := [] }

/-- The final `{name: ret[name] for name in actual_stats}` comprehension:
re-lists `ret` in the key order of the actual-statistics dict.  (At the
point Python evaluates it, every key of `actual_stats` is present in
`ret`, so the `filterMap` drops nothing.) -/
def finalResultMap (actualStats : List (String × ℚ))
    (ret : List (String × Result)) : List (String × Result) :=
  actualStats.filterMap (fun e => (ret.lookup e.1).map (fun r => (e.1, r)))

/-- One iteration of `for sample in _resampled_data_results(...)`:
update the accumulators, bump `seen`, and on test boundaries grow
`test_every` (once `seen ≥ 40 * test_every`), sweep all undecided
statistics, and return early when every statistic has a result. -/
def stepSample (csm : Csm) (eps log_inner_eps : ℚ) (log : Bool) (m n : ℕ)
    (actualStats : List (String × ℚ)) (st : LoopState)
    (sample : List (String × ℚ)) : Except String LoopState :=
  if st.finished.isSome then .ok st
  else
    match processItems actualStats st.accs sample with
    | .error e => .error e
    | .ok accs =>
      let seen := st.seen + 1
      if seen % st.testEvery ≠ 0 then
        .ok { st with accs := accs, seen := seen }
      else
        let testEvery :=
          if 40 * st.testEvery ≤ seen then st.testEvery * 10 else st.testEvery
        match runTests csm eps log_inner_eps log m n sample accs
            actualStats st.ret with
        | .error e => .error e
        | .ok (ret, evs) =>
          .ok { accs := accs, ret := ret, seen := seen, testEvery := testEvery,
                events := st.events ++ evs,
                finished :=
                  if ret.length = actualStats.length then
                    some (finalResultMap actualStats ret)
                  else none }

/-- The decision loop run over a stream of resampled result mappings
(the values yielded, in consumption order, by the merged parallel
generator; the stream is an input of the embedding since its contents
come from the opaque shuffle/statistic kernels and the PRNG). -/
def runSamples (csm : Csm) (eps log_inner_eps : ℚ) (log : Bool) (m n : ℕ)
    (actualStats : List (String × ℚ)) :
    LoopState → List (List (String × ℚ)) → Except String LoopState
  | st, [] => .ok st
  | st, sample :: rest =>
    match stepSample csm eps log_inner_eps log m n actualStats st sample with
    | .error e => .error e
    | .ok st' => runSamples csm eps log_inner_eps log m n actualStats st' rest

/-! ## The entry point `exact_test` -/

/-- `_make_buf` in `_actual_data_results`: stores each observation into a
`uint64_t[]`; cffi raises `OverflowError` for values out of range of
`uint64_t` (so `2^63 ≤ x < 2^64` is accepted silently). -/
def makeBuf (a b : List ℕ) : Except String (List ℕ) :=
  if (a ++ b).all (fun x => x < 2 ^ 64) then .ok (a ++ b)
  else .error "OverflowError: integer out of range for uint64_t"

/-- `_actual_data_results` without its buffer plumbing: one value per
statistic, keyed by name in a Python dict (duplicate names collapse,
last value wins).  The statistic kernels are opaque deterministic scalar
functions (`statValue`). -/
def actualDataResults (statValue : Statistic → ℚ)
    (statistics : List Statistic) : List (String × ℚ) :=
  statistics.foldl (fun d stat => dictInsert d stat.name (statValue stat)) []

/-- Externally visible milestones of a run, used to express that the
empty-statistics early return happens before any work. -/
inductive Effect where
  | computedActualStats
  | spawnedWorkers
deriving DecidableEq

/-- `exact_test`, with the opaque kernels (`csm`, `math.log`, the actual
statistic computation) and the consumed resample stream as parameters.
Returns the result of the run (`some` map on early return, `none` when
the modelled stream is exhausted while statistics are still undecided),
the log events printed, and the effect milestones reached. -/
def exact_test (csm : Csm) (mathLog : ℚ → ℚ) (statValue : Statistic → ℚ)
    (a b : List ℕ) (statistics : List Statistic) (eps : ℚ) (log : Bool)
    (samples : List (List (String × ℚ))) :
    Except String (Option (List (String × Result)) × List LogEvent) ×
      List Effect :=
  if statistics.isEmpty then (.ok (some [], []), [])
  else
    let m := a.length
    let n := b.length
    let eps := eps / (2 * (statistics.length : ℚ) * (11 / 10))
    if eps / 10 ≤ 0 then (.error "ValueError: math domain error", [])
    else
      let log_inner_eps := mathLog (eps / 10)
      match makeBuf a b with
      | .error e => (.error e, [.computedActualStats])
      | .ok _ =>
        let actual_stats := actualDataResults statValue statistics
        let ev0 : List LogEvent := if log then [.actual actual_stats] else []
        match runSamples csm eps log_inner_eps log m n actual_stats
            ⟨fun _ => ⟨0, 0, 0⟩, [], 0, 250, ev0, none⟩ samples with
        | .error e => (.error e, [.computedActualStats, .spawnedWorkers])
        | .ok st =>
          (.ok (st.finished, st.events), [.computedActualStats, .spawnedWorkers])

/-- Projection used in theorem statements: the returned result map of a
finished run (empty list when the run errored or remained undecided). -/
def returnedResults
    (out : Except String (Option (List (String × Result)) × List LogEvent) ×
      List Effect) : List (String × Result) :=
  match out.1 with
  | .ok (some l, _) => l
  | _ => []

/-! ## Shuffle failure in `_resampled_data_results_1.compute_results` -/

/-- Python exception values (as far as this model needs them). -/
inductive PyError where
  | typeError (msg : String)
  | exception (msg : String)
deriving DecidableEq

/-- Values handed to Python's `raise` statement. -/
inductive PyValue where
  | str (s : String)
  | exc (e : PyError)
deriving DecidableEq

/-- Semantics of Python 3's `raise v`: raising anything that is not a
`BaseException` (e.g. a plain string) itself raises `TypeError`. -/
def pyRaise : PyValue → PyError
  | .str _ => .typeError "exceptions must derive from BaseException"
  | .exc e => e

/-- `compute_results` in `_resampled_data_results_1` (both copies, in
`exact_test.py` and `exact_test_sampler.py`, are identical): for each
`p_a_lower` group, refill the shuffled buffer and call the opaque shuffle
kernel; on failure execute `raise "Shuffle failed: %s" % message`; on
success offset-sort per `(a_offset, b_offset)` subkey and evaluate each
statistic (the buffer contents are folded into the opaque `statEval`). -/
def compute_results (shuffle : ℚ → Bool × String)
    (statEval : ℚ → ℤ × ℤ → Statistic → ℚ) :
    Plan → List (String × ℚ) → Except PyError (List (String × ℚ))
  | [], results => .ok results
  | (p_a_lt, stats_for_p) :: rest, results =>
    let s := shuffle p_a_lt
    if s.1 then
      let results := stats_for_p.foldl
        (fun results offsetGroup =>
          offsetGroup.2.foldl
            (fun results stat =>
              dictInsert results stat.name (statEval p_a_lt offsetGroup.1 stat))
            results)
        results
      compute_results shuffle statEval rest results
    else
      .error (pyRaise (.str ("Shuffle failed: " ++ s.2)))

/-! ## Helper lemmas -/

theorem batchSizeAfter_append (cs : List Bool) (c : Bool) :
    batchSizeAfter (cs ++ [c]) = batchSizeStep (batchSizeAfter cs) c := by
  simp [batchSizeAfter, List.foldl_append]

theorem batchSizeAfter_closed (cs : List Bool) :
    batchSizeAfter cs = min (10 * 2 ^ cs.count true) 100000 := by
  induction cs using List.reverseRecOn with
  | nil => rfl
  | append_singleton cs c ih =>
    rw [batchSizeAfter_append, ih]
    cases c with
    | false =>
      simp [batchSizeStep, List.count_append]
    | true =>
      have hc : (cs ++ [true]).count true = cs.count true + 1 := by
        simp [List.count_append]
      have hp : 10 * 2 ^ (cs.count true + 1) = 2 * (10 * 2 ^ cs.count true) := by
        ring
      rw [hc, hp]
      simp only [batchSizeStep, BATCH_SIZE_GROWTH_FACTOR, MAX_BATCH_SIZE,
        if_true, eq_self_iff_true]
      omega

theorem innerStats_cons (k : ℤ × ℤ) (l : List Statistic) (rest : InnerPlan) :
    innerStats ((k, l) :: rest) = l ++ innerStats rest := rfl

theorem planStats_cons (q : ℚ) (inner : InnerPlan) (rest : Plan) :
    planStats ((q, inner) :: rest) = innerStats inner ++ planStats rest := rfl

theorem innerStats_innerInsert (inner : InnerPlan) (key : ℤ × ℤ)
    (stat : Statistic) :
    (innerStats (innerInsert inner key stat)).Perm (stat :: innerStats inner) := by
  induction inner with
  | nil => simp [innerInsert, innerStats]
  | cons kl rest ih =>
    obtain ⟨k, l⟩ := kl
    by_cases h : k = key
    · rw [innerInsert, if_pos h, innerStats_cons, innerStats_cons,
        List.append_assoc]
      exact List.perm_middle
    · rw [innerInsert, if_neg h, innerStats_cons, innerStats_cons]
      exact ((ih.append_left l).trans List.perm_middle)

theorem planStats_planInsert (plan : Plan) (p : ℚ) (key : ℤ × ℤ)
    (stat : Statistic) :
    (planStats (planInsert plan p key stat)).Perm (stat :: planStats plan) := by
  induction plan with
  | nil =>
    simp [planInsert, planStats, innerStats, innerInsert]
  | cons qi rest ih =>
    obtain ⟨q, inner⟩ := qi
    by_cases h : q = p
    · rw [planInsert, if_pos h, planStats_cons, planStats_cons]
      exact ((innerStats_innerInsert inner key stat).append_right _).trans
        (List.Perm.refl _)
    · rw [planInsert, if_neg h, planStats_cons, planStats_cons]
      exact ((ih.append_left (innerStats inner)).trans List.perm_middle)

theorem planStats_group (stats : List Statistic) :
    (planStats (group_statistics_in_plan stats)).Perm stats := by
  induction stats using List.reverseRecOn with
  | nil => rfl
  | append_singleton stats s ih =>
    rw [group_statistics_in_plan, List.foldl_append]
    refine (planStats_planInsert _ _ _ _).trans ?_
    refine (ih.cons s).trans ?_
    simpa using (@List.perm_middle _ s stats []).symm

theorem innerInsert_keyed (Q : (ℤ × ℤ) → Statistic → Prop)
    (inner : InnerPlan) (key₀ : ℤ × ℤ) (stat : Statistic)
    (h : ∀ key l, (key, l) ∈ inner → ∀ s ∈ l, Q key s)
    (hstat : Q key₀ stat) :
    ∀ key l, (key, l) ∈ innerInsert inner key₀ stat → ∀ s ∈ l, Q key s := by
  induction inner with
  | nil =>
    intro key l hm s hs
    simp [innerInsert] at hm
    obtain ⟨hk, hl⟩ := hm
    subst hk; subst hl
    simp at hs
    subst hs
    exact hstat
  | cons kl rest ih =>
    obtain ⟨k, l'⟩ := kl
    by_cases hk : k = key₀
    · intro key l hm s hs
      rw [innerInsert, if_pos hk] at hm
      rcases List.mem_cons.mp hm with hm | hm
      · injection hm with hm1 hm2
        rw [hm2] at hs
        rcases List.mem_append.mp hs with hs' | hs'
        · exact hm1 ▸ h k l' (List.mem_cons_self _ _) s hs'
        · have hss : s = stat := by simpa using hs'
          rw [hm1, hk, hss]
          exact hstat
      · exact h key l (List.mem_cons_of_mem _ hm) s hs
    · intro key l hm s hs
      rw [innerInsert, if_neg hk] at hm
      rcases List.mem_cons.mp hm with hm | hm
      · injection hm with hm1 hm2
        rw [hm2] at hs
        exact hm1 ▸ h k l' (List.mem_cons_self _ _) s hs
      · exact ih (fun key l hml s hsl =>
          h key l (List.mem_cons_of_mem _ hml) s hsl) key l hm s hs

theorem planInsert_keyed (R : ℚ → (ℤ × ℤ) → Statistic → Prop)
    (plan : Plan) (p₀ : ℚ) (key₀ : ℤ × ℤ) (stat : Statistic)
    (h : ∀ p inner, (p, inner) ∈ plan → ∀ key l, (key, l) ∈ inner →
      ∀ s ∈ l, R p key s)
    (hstat : R p₀ key₀ stat) :
    ∀ p inner, (p, inner) ∈ planInsert plan p₀ key₀ stat →
      ∀ key l, (key, l) ∈ inner → ∀ s ∈ l, R p key s := by
  induction plan with
  | nil =>
    intro p inner hm key l hil s hs
    simp [planInsert] at hm
    obtain ⟨hp, hi⟩ := hm
    rw [hi] at hil
    have hemp : ∀ key l, (key, l) ∈ ([] : InnerPlan) → ∀ s ∈ l, R p₀ key s := by
      intro _ _ hx
      simp at hx
    have := innerInsert_keyed (R p₀) [] key₀ stat hemp hstat key l hil s hs
    rw [hp]
    exact this
  | cons qi rest ih =>
    obtain ⟨q, inner'⟩ := qi
    by_cases hq : q = p₀
    · intro p inner hm key l hil s hs
      rw [planInsert, if_pos hq] at hm
      rcases List.mem_cons.mp hm with hm | hm
      · injection hm with hm1 hm2
        rw [hm2] at hil
        have hinner : ∀ key l, (key, l) ∈ inner' → ∀ s ∈ l, R q key s :=
          fun key l hx s hsx => h q inner' (List.mem_cons_self _ _) key l hx s hsx
        have hstat' : R q key₀ stat := hq ▸ hstat
        exact hm1 ▸ innerInsert_keyed (R q) inner' key₀ stat hinner hstat' key l hil s hs
      · exact h p inner (List.mem_cons_of_mem _ hm) key l hil s hs
    · intro p inner hm key l hil s hs
      rw [planInsert, if_neg hq] at hm
      rcases List.mem_cons.mp hm with hm | hm
      · injection hm with hm1 hm2
        rw [hm2] at hil
        exact hm1 ▸ h q inner' (List.mem_cons_self _ _) key l hil s hs
      · exact ih (fun p inner hml => h p inner (List.mem_cons_of_mem _ hml))
          p inner hm key l hil s hs

theorem group_keyed_aux (stats : List Statistic) (plan : Plan)
    (h : ∀ p inner, (p, inner) ∈ plan → ∀ key l, (key, l) ∈ inner →
      ∀ s ∈ l, s.probability_a_lower = p ∧ s.a_offset = key.1 ∧
        s.b_offset = key.2) :
    ∀ p inner,
      (p, inner) ∈ stats.foldl
        (fun plan stat =>
          planInsert plan stat.probability_a_lower
            (stat.a_offset, stat.b_offset) stat)
        plan →
      ∀ key l, (key, l) ∈ inner → ∀ s ∈ l,
        s.probability_a_lower = p ∧ s.a_offset = key.1 ∧
          s.b_offset = key.2 := by
  induction stats generalizing plan with
  | nil => simpa using h
  | cons stat rest ih =>
    simp only [List.foldl_cons]
    exact ih _ (planInsert_keyed _ plan _ _ stat h ⟨rfl, rfl, rfl⟩)

theorem lookup_mem {α : Type} (l : List (String × α)) (k : String) (v : α)
    (h : l.lookup k = some v) : (k, v) ∈ l := by
  induction l with
  | nil => simp [List.lookup] at h
  | cons p rest ih =>
    obtain ⟨k', v'⟩ := p
    rw [List.lookup] at h
    cases hbeq : (k == k') with
    | true =>
      simp only [hbeq] at h
      have hk : k = k' := eq_of_beq hbeq
      injection h with hv
      rw [hk, ← hv]
      exact List.mem_cons_self _ _
    | false =>
      simp only [hbeq] at h
      exact List.mem_cons_of_mem _ (ih h)

theorem significance_test_spec_rule (csm : Csm) (eps lie : ℚ) (name : String)
    (mc : ℚ) (m n : ℕ) (actual : ℚ) (lte gte trials : ℕ) (log : Bool)
    (hpos : 0 < trials) :
    (significance_test csm eps lie name mc m n actual lte gte trials log).map
        Prod.snd =
      .ok ((specJudgement (csm trials eps lte lie).1 (csm trials eps gte lie).1
          ((lte : ℚ) / (trials : ℚ)) ((gte : ℚ) / (trials : ℚ)) eps).map
        (fun j => (⟨actual, j, m, n, trials⟩ : Result))) := by
  have ht0 : ¬ trials = 0 := by omega
  simp only [significance_test, specJudgement]
  by_cases hlt : (csm trials eps lte lie).1 <;>
  by_cases hgt : (csm trials eps gte lie).1 <;>
  by_cases h1 : ((lte : ℚ) / (trials : ℚ) < eps) <;>
  by_cases h2 : ((gte : ℚ) / (trials : ℚ) < eps) <;>
  simp [hlt, hgt, h1, h2, ht0, Except.map]

theorem specJudgement_mem (lt gt : Bool) (a b eps : ℚ) (j : ℤ)
    (h : specJudgement lt gt a b eps = some j) : j = -1 ∨ j = 0 ∨ j = 1 := by
  rw [specJudgement] at h
  split_ifs at h <;> simp at h <;> omega

theorem significance_test_ok_result (csm : Csm) (eps lie : ℚ) (name : String)
    (mc : ℚ) (m n : ℕ) (actual : ℚ) (lte gte trials : ℕ) (log : Bool)
    (evs : List LogEvent) (r : Result)
    (h : significance_test csm eps lie name mc m n actual lte gte trials log =
      .ok (evs, some r)) :
    (r.judgement = -1 ∨ r.judgement = 0 ∨ r.judgement = 1) ∧
      0 < r.num_trials := by
  by_cases h0 : trials = 0
  · exfalso
    subst h0
    rw [significance_test] at h
    by_cases hlt : (csm 0 eps lte lie).1 <;>
    by_cases hgt : (csm 0 eps gte lie).1 <;> simp [hlt, hgt] at h
  · have hpos : 0 < trials := Nat.pos_of_ne_zero h0
    have hs := significance_test_spec_rule csm eps lie name mc m n actual lte
      gte trials log hpos
    rw [h] at hs
    cases hjs : specJudgement (csm trials eps lte lie).1
        (csm trials eps gte lie).1 ((lte : ℚ) / (trials : ℚ))
        ((gte : ℚ) / (trials : ℚ)) eps with
    | none =>
      rw [hjs] at hs
      simp [Except.map] at hs
    | some j =>
      rw [hjs] at hs
      simp [Except.map] at hs
      rcases specJudgement_mem _ _ _ _ _ _ hjs with hj | hj | hj <;>
        rw [hs] <;> exact ⟨by simp [hj], by simpa using hpos⟩

theorem significance_test_csm_congr (csm₁ csm₂ : Csm) (eps lie : ℚ)
    (h : ∀ t k, csm₁ t eps k lie = csm₂ t eps k lie) (name : String) (mc : ℚ)
    (m n : ℕ) (actual : ℚ) (lte gte trials : ℕ) (log : Bool) :
    significance_test csm₁ eps lie name mc m n actual lte gte trials log =
      significance_test csm₂ eps lie name mc m n actual lte gte trials log := by
  simp only [significance_test, h]

theorem updateAccumulator_fields (current : Accumulator) (stat actual : ℚ) :
    updateAccumulator current stat actual =
      ⟨current.trials + 1,
        current.lte_actual + (if stat ≤ actual then 1 else 0),
        current.gte_actual + (if stat ≥ actual then 1 else 0)⟩ := by
  obtain ⟨t, l, g⟩ := current
  rw [updateAccumulator]
  by_cases h1 : stat ≤ actual <;> by_cases h2 : stat ≥ actual <;>
    simp [h1, h2]

theorem updateAccumulator_inv (current : Accumulator) (stat actual : ℚ)
    (h1 : current.lte_actual ≤ current.trials)
    (h2 : current.gte_actual ≤ current.trials)
    (h3 : current.trials ≤ current.lte_actual + current.gte_actual) :
    (updateAccumulator current stat actual).lte_actual ≤
        (updateAccumulator current stat actual).trials ∧
      (updateAccumulator current stat actual).gte_actual ≤
        (updateAccumulator current stat actual).trials ∧
      (updateAccumulator current stat actual).trials ≤
        (updateAccumulator current stat actual).lte_actual +
          (updateAccumulator current stat actual).gte_actual := by
  rw [updateAccumulator_fields]
  by_cases hA : stat ≤ actual <;> by_cases hB : stat ≥ actual
  · simp [hA, hB]; omega
  · simp [hA, hB]; omega
  · simp [hA, hB]; omega
  · rcases le_total stat actual with h | h
    · exact absurd h hA
    · exact absurd h hB

theorem updateAccumulator_mono (current : Accumulator) (stat actual : ℚ) :
    current.trials ≤ (updateAccumulator current stat actual).trials ∧
      current.lte_actual ≤ (updateAccumulator current stat actual).lte_actual ∧
      current.gte_actual ≤ (updateAccumulator current stat actual).gte_actual := by
  rw [updateAccumulator_fields]
  refine ⟨by simp, ?_, ?_⟩ <;> split_ifs <;> simp

theorem processItems_inv (actualStats : List (String × ℚ)) :
    ∀ (items : List (String × ℚ)) (accs accs' : String → Accumulator),
      processItems actualStats accs items = .ok accs' →
      (∀ nm, (accs nm).lte_actual ≤ (accs nm).trials ∧
        (accs nm).gte_actual ≤ (accs nm).trials ∧
        (accs nm).trials ≤ (accs nm).lte_actual + (accs nm).gte_actual) →
      ∀ nm, (accs' nm).lte_actual ≤ (accs' nm).trials ∧
        (accs' nm).gte_actual ≤ (accs' nm).trials ∧
        (accs' nm).trials ≤ (accs' nm).lte_actual + (accs' nm).gte_actual := by
  intro items
  induction items with
  | nil =>
    intro accs accs' h hinv
    rw [processItems] at h
    injection h with h
    rw [← h]
    exact hinv
  | cons item rest ih =>
    intro accs accs' h hinv
    obtain ⟨name, stat⟩ := item
    rw [processItems] at h
    cases hlk : actualStats.lookup name with
    | none => rw [hlk] at h; exact absurd h (by simp)
    | some actual =>
      rw [hlk] at h
      refine ih _ accs' h ?_
      intro nm
      by_cases hnm : nm = name
      · subst hnm
        simp only [eq_self_iff_true, if_true]
        exact updateAccumulator_inv _ _ _ (hinv nm).1 (hinv nm).2.1
          (hinv nm).2.2
      · simp only [if_neg hnm]
        exact hinv nm

theorem processItems_mono (actualStats : List (String × ℚ)) :
    ∀ (items : List (String × ℚ)) (accs accs' : String → Accumulator),
      processItems actualStats accs items = .ok accs' →
      ∀ nm, (accs nm).trials ≤ (accs' nm).trials ∧
        (accs nm).lte_actual ≤ (accs' nm).lte_actual ∧
        (accs nm).gte_actual ≤ (accs' nm).gte_actual := by
  intro items
  induction items with
  | nil =>
    intro accs accs' h nm
    rw [processItems] at h
    injection h with h
    rw [← h]
    exact ⟨le_refl _, le_refl _, le_refl _⟩
  | cons item rest ih =>
    intro accs accs' h nm
    obtain ⟨name, stat⟩ := item
    rw [processItems] at h
    cases hlk : actualStats.lookup name with
    | none => rw [hlk] at h; exact absurd h (by simp)
    | some actual =>
      rw [hlk] at h
      have hrest := ih _ accs' h nm
      by_cases hnm : nm = name
      · subst hnm
        simp only [eq_self_iff_true, if_true] at hrest
        have hupd := updateAccumulator_mono (accs nm) stat actual
        exact ⟨le_trans hupd.1 hrest.1, le_trans hupd.2.1 hrest.2.1,
          le_trans hupd.2.2 hrest.2.2⟩
      · simp only [if_neg hnm] at hrest
        exact hrest

theorem significance_test_log_snd (csm : Csm) (eps lie : ℚ) (name : String)
    (mc : ℚ) (m n : ℕ) (actual : ℚ) (lte gte trials : ℕ) (log₁ log₂ : Bool) :
    (significance_test csm eps lie name mc m n actual lte gte trials log₁).map
        Prod.snd =
      (significance_test csm eps lie name mc m n actual lte gte trials
          log₂).map Prod.snd := by
  simp only [significance_test]
  split_ifs <;> simp [Except.map]

theorem finalResultMap_mem (actualStats : List (String × ℚ))
    (ret : List (String × Result)) (nm : String) (r : Result)
    (h : (nm, r) ∈ finalResultMap actualStats ret) : (nm, r) ∈ ret := by
  rw [finalResultMap] at h
  obtain ⟨e, he, heq⟩ := List.mem_filterMap.mp h
  cases hlk : ret.lookup e.1 with
  | none => rw [hlk] at heq; simp at heq
  | some r' =>
    rw [hlk] at heq
    simp at heq
    obtain ⟨h1, h2⟩ := heq
    exact h1 ▸ h2 ▸ lookup_mem _ _ _ hlk

theorem runTests_ret_invariant (csm : Csm) (eps lie : ℚ) (log : Bool)
    (m n : ℕ) (sample : List (String × ℚ)) (accs : String → Accumulator)
    (P : Result → Prop)
    (hP : ∀ name mc actual lte gte trials evs r,
      significance_test csm eps lie name mc m n actual lte gte trials log =
        .ok (evs, some r) → P r) :
    ∀ (entries : List (String × ℚ)) (ret ret' : List (String × Result))
      (evs' : List LogEvent),
      (∀ x ∈ ret, P x.2) →
      runTests csm eps lie log m n sample accs entries ret = .ok (ret', evs') →
      ∀ x ∈ ret', P x.2 := by
  intro entries
  induction entries with
  | nil =>
    intro ret ret' evs' hret h
    rw [runTests] at h
    injection h with h
    injection h with h1 h2
    rw [← h1]
    exact hret
  | cons e rest ih =>
    intro ret ret' evs' hret h
    obtain ⟨name, actual⟩ := e
    rw [runTests] at h
    by_cases hmem : (ret.lookup name).isSome
    · rw [if_pos hmem] at h
      exact ih ret ret' evs' hret h
    · rw [if_neg hmem] at h
      cases hlk : sample.lookup name with
      | none =>
        simp only [hlk] at h
        exact Except.noConfusion h
      | some mc =>
        simp only [hlk] at h
        cases hsig : significance_test csm eps lie name mc m n actual
            (accs name).lte_actual (accs name).gte_actual (accs name).trials
            log with
        | error err =>
          simp only [hsig] at h
          exact Except.noConfusion h
        | ok p =>
          obtain ⟨evs, res⟩ := p
          cases res with
          | none =>
            simp only [hsig] at h
            cases hrec : runTests csm eps lie log m n sample accs rest ret with
            | error err =>
              simp only [hrec] at h
              exact Except.noConfusion h
            | ok q =>
              obtain ⟨q1, q2⟩ := q
              simp only [hrec] at h
              injection h with h
              injection h with h1 h2
              rw [← h1]
              exact ih ret q1 q2 hret hrec
          | some r =>
            have hr : P r := hP name mc actual _ _ _ evs r hsig
            simp only [hsig] at h
            cases hrec : runTests csm eps lie log m n sample accs rest
                (ret ++ [(name, r)]) with
            | error err =>
              simp only [hrec] at h
              exact Except.noConfusion h
            | ok q =>
              obtain ⟨q1, q2⟩ := q
              simp only [hrec] at h
              injection h with h
              injection h with h1 h2
              rw [← h1]
              refine ih (ret ++ [(name, r)]) q1 q2 ?_ hrec
              intro x hx
              rcases List.mem_append.mp hx with hx | hx
              · exact hret x hx
              · have : x = (name, r) := by simpa using hx
                rw [this]
                exact hr

theorem runTests_csm_congr (csm₁ csm₂ : Csm) (eps lie : ℚ)
    (h : ∀ t k, csm₁ t eps k lie = csm₂ t eps k lie) (log : Bool) (m n : ℕ)
    (sample : List (String × ℚ)) (accs : String → Accumulator) :
    ∀ entries ret,
      runTests csm₁ eps lie log m n sample accs entries ret =
        runTests csm₂ eps lie log m n sample accs entries ret := by
  intro entries
  induction entries with
  | nil => intro ret; rfl
  | cons e rest ih =>
    intro ret
    obtain ⟨name, actual⟩ := e
    rw [runTests, runTests]
    simp only [significance_test_csm_congr csm₁ csm₂ eps lie h, ih]

theorem runTests_log_fst (csm : Csm) (eps lie : ℚ) (log₁ log₂ : Bool)
    (m n : ℕ) (sample : List (String × ℚ)) (accs : String → Accumulator) :
    ∀ entries ret,
      (runTests csm eps lie log₁ m n sample accs entries ret).map Prod.fst =
        (runTests csm eps lie log₂ m n sample accs entries ret).map
          Prod.fst := by
  intro entries
  induction entries with
  | nil => intro ret; rfl
  | cons e rest ih =>
    intro ret
    obtain ⟨name, actual⟩ := e
    rw [runTests, runTests]
    by_cases hmem : (ret.lookup name).isSome
    · rw [if_pos hmem, if_pos hmem]
      exact ih ret
    · rw [if_neg hmem, if_neg hmem]
      cases hlk : sample.lookup name with
      | none => simp
      | some mc =>
        have hsnd := significance_test_log_snd csm eps lie name mc m n actual
          (accs name).lte_actual (accs name).gte_actual (accs name).trials
          log₁ log₂
        cases hsig1 : significance_test csm eps lie name mc m n actual
            (accs name).lte_actual (accs name).gte_actual (accs name).trials
            log₁ with
        | error err₁ =>
          cases hsig2 : significance_test csm eps lie name mc m n actual
              (accs name).lte_actual (accs name).gte_actual (accs name).trials
              log₂ with
          | error err₂ =>
            rw [hsig1, hsig2] at hsnd
            simp [Except.map] at hsnd
            simp [hsig1, hsig2, Except.map, hsnd]
          | ok q =>
            rw [hsig1, hsig2] at hsnd
            simp [Except.map] at hsnd
        | ok p =>
          obtain ⟨evs₁, res₁⟩ := p
          cases hsig2 : significance_test csm eps lie name mc m n actual
              (accs name).lte_actual (accs name).gte_actual (accs name).trials
              log₂ with
          | error err₂ =>
            rw [hsig1, hsig2] at hsnd
            simp [Except.map] at hsnd
          | ok q =>
            obtain ⟨evs₂, res₂⟩ := q
            rw [hsig1, hsig2] at hsnd
            simp [Except.map] at hsnd
            simp only [hsig1, hsig2, ← hsnd]
            cases res₁ with
            | none =>
              have hih := ih ret
              cases hrec1 : runTests csm eps lie log₁ m n sample accs rest
                  ret with
              | error e₁ =>
                cases hrec2 : runTests csm eps lie log₂ m n sample accs rest
                    ret with
                | error e₂ =>
                  rw [hrec1, hrec2] at hih
                  simp [Except.map] at hih
                  simp [hrec1, hrec2, Except.map, hih]
                | ok p₂ =>
                  rw [hrec1, hrec2] at hih
                  simp [Except.map] at hih
              | ok p₁ =>
                obtain ⟨r₁, e₁⟩ := p₁
                cases hrec2 : runTests csm eps lie log₂ m n sample accs rest
                    ret with
                | error e₂ =>
                  rw [hrec1, hrec2] at hih
                  simp [Except.map] at hih
                | ok p₂ =>
                  obtain ⟨r₂, e₂⟩ := p₂
                  rw [hrec1, hrec2] at hih
                  simp [Except.map] at hih
                  simp [hrec1, hrec2, Except.map, hih]
            | some r =>
              have hih := ih (ret ++ [(name, r)])
              cases hrec1 : runTests csm eps lie log₁ m n sample accs rest
                  (ret ++ [(name, r)]) with
              | error e₁ =>
                cases hrec2 : runTests csm eps lie log₂ m n sample accs rest
                    (ret ++ [(name, r)]) with
                | error e₂ =>
                  rw [hrec1, hrec2] at hih
                  simp [Except.map] at hih
                  simp [hrec1, hrec2, Except.map, hih]
                | ok p₂ =>
                  rw [hrec1, hrec2] at hih
                  simp [Except.map] at hih
              | ok p₁ =>
                obtain ⟨r₁, e₁⟩ := p₁
                cases hrec2 : runTests csm eps lie log₂ m n sample accs rest
                    (ret ++ [(name, r)]) with
                | error e₂ =>
                  rw [hrec1, hrec2] at hih
                  simp [Except.map] at hih
                | ok p₂ =>
                  obtain ⟨r₂, e₂⟩ := p₂
                  rw [hrec1, hrec2] at hih
                  simp [Except.map] at hih
                  simp [hrec1, hrec2, Except.map, hih]

theorem stepSample_accs_inv (csm : Csm) (eps lie : ℚ) (log : Bool) (m n : ℕ)
    (actualStats : List (String × ℚ)) (st : LoopState)
    (sample : List (String × ℚ)) (st' : LoopState)
    (h : stepSample csm eps lie log m n actualStats st sample = .ok st')
    (hinv : ∀ nm, (st.accs nm).lte_actual ≤ (st.accs nm).trials ∧
      (st.accs nm).gte_actual ≤ (st.accs nm).trials ∧
      (st.accs nm).trials ≤ (st.accs nm).lte_actual + (st.accs nm).gte_actual) :
    ∀ nm, (st'.accs nm).lte_actual ≤ (st'.accs nm).trials ∧
      (st'.accs nm).gte_actual ≤ (st'.accs nm).trials ∧
      (st'.accs nm).trials ≤
        (st'.accs nm).lte_actual + (st'.accs nm).gte_actual := by
  rw [stepSample] at h
  by_cases hfin : st.finished.isSome
  · rw [if_pos hfin] at h
    injection h with h
    rw [← h]
    exact hinv
  · rw [if_neg hfin] at h
    cases hpi : processItems actualStats st.accs sample with
    | error e =>
      simp only [hpi] at h
      exact Except.noConfusion h
    | ok accs =>
      simp only [hpi] at h
      have hinv' := processItems_inv actualStats sample st.accs accs hpi hinv
      by_cases hmod : (st.seen + 1) % st.testEvery ≠ 0
      · rw [if_pos hmod] at h
        injection h with h
        rw [← h]
        exact hinv'
      · rw [if_neg hmod] at h
        cases hrt : runTests csm eps lie log m n sample accs actualStats
            st.ret with
        | error e =>
          simp only [hrt] at h
          exact Except.noConfusion h
        | ok p =>
          obtain ⟨ret, evs⟩ := p
          simp only [hrt] at h
          injection h with h
          rw [← h]
          exact hinv'

theorem stepSample_accs_mono (csm : Csm) (eps lie : ℚ) (log : Bool) (m n : ℕ)
    (actualStats : List (String × ℚ)) (st : LoopState)
    (sample : List (String × ℚ)) (st' : LoopState)
    (h : stepSample csm eps lie log m n actualStats st sample = .ok st') :
    ∀ nm, (st.accs nm).trials ≤ (st'.accs nm).trials ∧
      (st.accs nm).lte_actual ≤ (st'.accs nm).lte_actual ∧
      (st.accs nm).gte_actual ≤ (st'.accs nm).gte_actual := by
  rw [stepSample] at h
  by_cases hfin : st.finished.isSome
  · rw [if_pos hfin] at h
    injection h with h
    rw [← h]
    exact fun nm => ⟨le_refl _, le_refl _, le_refl _⟩
  · rw [if_neg hfin] at h
    cases hpi : processItems actualStats st.accs sample with
    | error e =>
      simp only [hpi] at h
      exact Except.noConfusion h
    | ok accs =>
      simp only [hpi] at h
      have hmono := processItems_mono actualStats sample st.accs accs hpi
      by_cases hmod : (st.seen + 1) % st.testEvery ≠ 0
      · rw [if_pos hmod] at h
        injection h with h
        rw [← h]
        exact hmono
      · rw [if_neg hmod] at h
        cases hrt : runTests csm eps lie log m n sample accs actualStats
            st.ret with
        | error e =>
          simp only [hrt] at h
          exact Except.noConfusion h
        | ok p =>
          obtain ⟨ret, evs⟩ := p
          simp only [hrt] at h
          injection h with h
          rw [← h]
          exact hmono

theorem stepSample_ret_inv (csm : Csm) (eps lie : ℚ) (log : Bool) (m n : ℕ)
    (actualStats : List (String × ℚ)) (st : LoopState)
    (sample : List (String × ℚ)) (st' : LoopState) (P : Result → Prop)
    (hP : ∀ name mc actual lte gte trials evs r,
      significance_test csm eps lie name mc m n actual lte gte trials log =
        .ok (evs, some r) → P r)
    (h : stepSample csm eps lie log m n actualStats st sample = .ok st')
    (hret : ∀ x ∈ st.ret, P x.2)
    (hfin : ∀ l, st.finished = some l → ∀ x ∈ l, P x.2) :
    (∀ x ∈ st'.ret, P x.2) ∧
      (∀ l, st'.finished = some l → ∀ x ∈ l, P x.2) := by
  rw [stepSample] at h
  by_cases hfinb : st.finished.isSome
  · rw [if_pos hfinb] at h
    injection h with h
    rw [← h]
    exact ⟨hret, hfin⟩
  · rw [if_neg hfinb] at h
    cases hpi : processItems actualStats st.accs sample with
    | error e =>
      simp only [hpi] at h
      exact Except.noConfusion h
    | ok accs =>
      simp only [hpi] at h
      by_cases hmod : (st.seen + 1) % st.testEvery ≠ 0
      · rw [if_pos hmod] at h
        injection h with h
        rw [← h]
        exact ⟨hret, hfin⟩
      · rw [if_neg hmod] at h
        cases hrt : runTests csm eps lie log m n sample accs actualStats
            st.ret with
        | error e =>
          simp only [hrt] at h
          exact Except.noConfusion h
        | ok p =>
          obtain ⟨ret, evs⟩ := p
          simp only [hrt] at h
          injection h with h
          rw [← h]
          have hret' : ∀ x ∈ ret, P x.2 :=
            runTests_ret_invariant csm eps lie log m n sample accs P hP
              actualStats st.ret ret evs hret hrt
          refine ⟨hret', ?_⟩
          intro l hl
          by_cases hlen : ret.length = actualStats.length
          · simp only [if_pos hlen] at hl
            injection hl with hl
            rw [← hl]
            intro x hx
            obtain ⟨nm, r⟩ := x
            exact hret' (nm, r) (finalResultMap_mem actualStats ret nm r hx)
          · simp only [if_neg hlen] at hl
            exact Option.noConfusion hl

theorem stepSample_csm_congr (csm₁ csm₂ : Csm) (eps lie : ℚ)
    (h : ∀ t k, csm₁ t eps k lie = csm₂ t eps k lie) (log : Bool) (m n : ℕ)
    (actualStats : List (String × ℚ)) (st : LoopState)
    (sample : List (String × ℚ)) :
    stepSample csm₁ eps lie log m n actualStats st sample =
      stepSample csm₂ eps lie log m n actualStats st sample := by
  rw [stepSample, stepSample]
  simp only [runTests_csm_congr csm₁ csm₂ eps lie h log m n]

theorem stepSample_log_strip (csm : Csm) (eps lie : ℚ) (log₁ log₂ : Bool)
    (m n : ℕ) (actualStats : List (String × ℚ)) (st₁ st₂ : LoopState)
    (sample : List (String × ℚ))
    (hstrip : stripEvents st₁ = stripEvents st₂) :
    (stepSample csm eps lie log₁ m n actualStats st₁ sample).map stripEvents =
      (stepSample csm eps lie log₂ m n actualStats st₂ sample).map
        stripEvents := by
  have haccs := congrArg LoopState.accs hstrip
  have hret := congrArg LoopState.ret hstrip
  have hseen := congrArg LoopState.seen hstrip
  have htev := congrArg LoopState.testEvery hstrip
  have hfin := congrArg LoopState.finished hstrip
  simp only [stripEvents] at haccs hret hseen htev hfin
  rw [stepSample, stepSample, ← haccs, ← hret, ← hseen, ← htev, ← hfin]
  by_cases hfinb : st₁.finished.isSome
  · rw [if_pos hfinb, if_pos hfinb]
    simp only [Except.map]
    exact congrArg Except.ok hstrip
  · rw [if_neg hfinb, if_neg hfinb]
    cases hpi : processItems actualStats st₁.accs sample with
    | error e => simp only [hpi]
    | ok accs =>
      simp only [hpi]
      by_cases hmod : (st₁.seen + 1) % st₁.testEvery ≠ 0
      · rw [if_pos hmod, if_pos hmod]
        simp only [Except.map]
        refine congrArg Except.ok ?_
        rw [stripEvents, stripEvents]
      · rw [if_neg hmod, if_neg hmod]
        have hfst := runTests_log_fst csm eps lie log₁ log₂ m n sample accs
          actualStats st₁.ret
        cases hrt1 : runTests csm eps lie log₁ m n sample accs actualStats
            st₁.ret with
        | error e₁ =>
          cases hrt2 : runTests csm eps lie log₂ m n sample accs actualStats
              st₁.ret with
          | error e₂ =>
            rw [hrt1, hrt2] at hfst
            simp [Except.map] at hfst
            simp only [hrt1, hrt2, hfst]
          | ok p₂ =>
            rw [hrt1, hrt2] at hfst
            simp [Except.map] at hfst
        | ok p₁ =>
          obtain ⟨ret₁, evs₁⟩ := p₁
          cases hrt2 : runTests csm eps lie log₂ m n sample accs actualStats
              st₁.ret with
          | error e₂ =>
            rw [hrt1, hrt2] at hfst
            simp [Except.map] at hfst
          | ok p₂ =>
            obtain ⟨ret₂, evs₂⟩ := p₂
            rw [hrt1, hrt2] at hfst
            simp [Except.map] at hfst
            simp only [hrt1, hrt2]
            simp [Except.map, stripEvents, hfst]

theorem runSamples_append (csm : Csm) (eps lie : ℚ) (log : Bool) (m n : ℕ)
    (actualStats : List (String × ℚ)) :
    ∀ (samples₁ samples₂ : List (List (String × ℚ))) (st : LoopState),
      runSamples csm eps lie log m n actualStats st (samples₁ ++ samples₂) =
        match runSamples csm eps lie log m n actualStats st samples₁ with
        | .error e => .error e
        | .ok st' => runSamples csm eps lie log m n actualStats st' samples₂ := by
  intro samples₁
  induction samples₁ with
  | nil => intro samples₂ st; rfl
  | cons s rest ih =>
    intro samples₂ st
    rw [List.cons_append, runSamples, runSamples]
    cases hstep : stepSample csm eps lie log m n actualStats st s with
    | error e => simp only [hstep]
    | ok st' =>
      simp only [hstep]
      exact ih samples₂ st'

theorem runSamples_accs_inv (csm : Csm) (eps lie : ℚ) (log : Bool) (m n : ℕ)
    (actualStats : List (String × ℚ)) :
    ∀ (samples : List (List (String × ℚ))) (st st' : LoopState),
      runSamples csm eps lie log m n actualStats st samples = .ok st' →
      (∀ nm, (st.accs nm).lte_actual ≤ (st.accs nm).trials ∧
        (st.accs nm).gte_actual ≤ (st.accs nm).trials ∧
        (st.accs nm).trials ≤
          (st.accs nm).lte_actual + (st.accs nm).gte_actual) →
      ∀ nm, (st'.accs nm).lte_actual ≤ (st'.accs nm).trials ∧
        (st'.accs nm).gte_actual ≤ (st'.accs nm).trials ∧
        (st'.accs nm).trials ≤
          (st'.accs nm).lte_actual + (st'.accs nm).gte_actual := by
  intro samples
  induction samples with
  | nil =>
    intro st st' h hinv
    rw [runSamples] at h
    injection h with h
    rw [← h]
    exact hinv
  | cons s rest ih =>
    intro st st' h hinv
    rw [runSamples] at h
    cases hstep : stepSample csm eps lie log m n actualStats st s with
    | error e =>
      simp only [hstep] at h
      exact Except.noConfusion h
    | ok st₁ =>
      simp only [hstep] at h
      exact ih st₁ st' h
        (stepSample_accs_inv csm eps lie log m n actualStats st s st₁ hstep hinv)

theorem runSamples_accs_mono (csm : Csm) (eps lie : ℚ) (log : Bool) (m n : ℕ)
    (actualStats : List (String × ℚ)) :
    ∀ (samples : List (List (String × ℚ))) (st st' : LoopState),
      runSamples csm eps lie log m n actualStats st samples = .ok st' →
      ∀ nm, (st.accs nm).trials ≤ (st'.accs nm).trials ∧
        (st.accs nm).lte_actual ≤ (st'.accs nm).lte_actual ∧
        (st.accs nm).gte_actual ≤ (st'.accs nm).gte_actual := by
  intro samples
  induction samples with
  | nil =>
    intro st st' h nm
    rw [runSamples] at h
    injection h with h
    rw [← h]
    exact ⟨le_refl _, le_refl _, le_refl _⟩
  | cons s rest ih =>
    intro st st' h nm
    rw [runSamples] at h
    cases hstep : stepSample csm eps lie log m n actualStats st s with
    | error e =>
      simp only [hstep] at h
      exact Except.noConfusion h
    | ok st₁ =>
      simp only [hstep] at h
      have h1 := stepSample_accs_mono csm eps lie log m n actualStats st s st₁
        hstep nm
      have h2 := ih st₁ st' h nm
      exact ⟨le_trans h1.1 h2.1, le_trans h1.2.1 h2.2.1,
        le_trans h1.2.2 h2.2.2⟩

theorem runSamples_ret_inv (csm : Csm) (eps lie : ℚ) (log : Bool) (m n : ℕ)
    (actualStats : List (String × ℚ)) (P : Result → Prop)
    (hP : ∀ name mc actual lte gte trials evs r,
      significance_test csm eps lie name mc m n actual lte gte trials log =
        .ok (evs, some r) → P r) :
    ∀ (samples : List (List (String × ℚ))) (st st' : LoopState),
      runSamples csm eps lie log m n actualStats st samples = .ok st' →
      (∀ x ∈ st.ret, P x.2) →
      (∀ l, st.finished = some l → ∀ x ∈ l, P x.2) →
      (∀ x ∈ st'.ret, P x.2) ∧
        (∀ l, st'.finished = some l → ∀ x ∈ l, P x.2) := by
  intro samples
  induction samples with
  | nil =>
    intro st st' h hret hfin
    rw [runSamples] at h
    injection h with h
    rw [← h]
    exact ⟨hret, hfin⟩
  | cons s rest ih =>
    intro st st' h hret hfin
    rw [runSamples] at h
    cases hstep : stepSample csm eps lie log m n actualStats st s with
    | error e =>
      simp only [hstep] at h
      exact Except.noConfusion h
    | ok st₁ =>
      simp only [hstep] at h
      have hs := stepSample_ret_inv csm eps lie log m n actualStats st s st₁ P
        hP hstep hret hfin
      exact ih st₁ st' h hs.1 hs.2

theorem runSamples_csm_congr (csm₁ csm₂ : Csm) (eps lie : ℚ)
    (h : ∀ t k, csm₁ t eps k lie = csm₂ t eps k lie) (log : Bool) (m n : ℕ)
    (actualStats : List (String × ℚ)) :
    ∀ (samples : List (List (String × ℚ))) (st : LoopState),
      runSamples csm₁ eps lie log m n actualStats st samples =
        runSamples csm₂ eps lie log m n actualStats st samples := by
  intro samples
  induction samples with
  | nil => intro st; rfl
  | cons s rest ih =>
    intro st
    rw [runSamples, runSamples]
    simp only [stepSample_csm_congr csm₁ csm₂ eps lie h, ih]

theorem runSamples_log_strip (csm : Csm) (eps lie : ℚ) (log₁ log₂ : Bool)
    (m n : ℕ) (actualStats : List (String × ℚ)) :
    ∀ (samples : List (List (String × ℚ))) (st₁ st₂ : LoopState),
      stripEvents st₁ = stripEvents st₂ →
      (runSamples csm eps lie log₁ m n actualStats st₁ samples).map
          stripEvents =
        (runSamples csm eps lie log₂ m n actualStats st₂ samples).map
          stripEvents := by
  intro samples
  induction samples with
  | nil =>
    intro st₁ st₂ h
    simp [runSamples, Except.map, h]
  | cons s rest ih =>
    intro st₁ st₂ h
    rw [runSamples, runSamples]
    have hstep := stepSample_log_strip csm eps lie log₁ log₂ m n actualStats
      st₁ st₂ s h
    cases h1 : stepSample csm eps lie log₁ m n actualStats st₁ s with
    | error e₁ =>
      cases h2 : stepSample csm eps lie log₂ m n actualStats st₂ s with
      | error e₂ =>
        rw [h1, h2] at hstep
        simp [Except.map] at hstep
        simp only [h1, h2, hstep]
      | ok st₂' =>
        rw [h1, h2] at hstep
        simp [Except.map] at hstep
    | ok st₁' =>
      cases h2 : stepSample csm eps lie log₂ m n actualStats st₂ s with
      | error e₂ =>
        rw [h1, h2] at hstep
        simp [Except.map] at hstep
      | ok st₂' =>
        rw [h1, h2] at hstep
        simp [Except.map] at hstep
        simp only [h1, h2]
        exact ih st₁' st₂' hstep

theorem exact_test_prefix_ok (csm : Csm) (mathLog : ℚ → ℚ)
    (statValue : Statistic → ℚ) (a b : List ℕ) (statistics : List Statistic)
    (eps : ℚ) (log : Bool) (hne : statistics ≠ []) (hpos : 0 < eps)
    (hobs : ∀ x ∈ a ++ b, x < 2 ^ 64) :
    (exact_test csm mathLog statValue a b statistics eps log []).1.map
        Prod.fst = .ok none := by
  have hemp : ¬ (statistics.isEmpty = true) := by
    cases statistics with
    | nil => exact absurd rfl hne
    | cons s rest => simp
  have hlen : (0 : ℚ) < (statistics.length : ℚ) := by
    have : 0 < statistics.length := by
      cases statistics with
      | nil => exact absurd rfl hne
      | cons s rest => simp
    exact_mod_cast this
  have hX : (0 : ℚ) < 2 * (statistics.length : ℚ) * (11 / 10) :=
    mul_pos (mul_pos two_pos hlen) (by norm_num)
  have heps' : 0 < eps / (2 * (statistics.length : ℚ) * (11 / 10)) :=
    div_pos hpos hX
  have hdom : ¬ (eps / (2 * (statistics.length : ℚ) * (11 / 10)) / 10 ≤ 0) :=
    not_le.mpr (div_pos heps' (by norm_num))
  have hbuf : makeBuf a b = .ok (a ++ b) := by
    rw [makeBuf, if_pos]
    rw [List.all_eq_true]
    intro x hx
    exact decide_eq_true (hobs x hx)
  simp only [exact_test, if_neg hemp, if_neg hdom, hbuf]
  rw [runSamples]
  rfl

theorem exact_test_returned_good (csm : Csm) (mathLog : ℚ → ℚ)
    (statValue : Statistic → ℚ) (a b : List ℕ) (statistics : List Statistic)
    (eps : ℚ) (log : Bool) (samples : List (List (String × ℚ))) :
    ∀ x ∈ returnedResults
        (exact_test csm mathLog statValue a b statistics eps log samples),
      (x.2.judgement = -1 ∨ x.2.judgement = 0 ∨ x.2.judgement = 1) ∧
        0 < x.2.num_trials := by
  intro x hx
  simp only [exact_test] at hx
  by_cases hemp : statistics.isEmpty
  · simp only [if_pos hemp] at hx
    simp [returnedResults] at hx
  · simp only [if_neg hemp] at hx
    by_cases hdom : eps / (2 * (statistics.length : ℚ) * (11 / 10)) / 10 ≤ 0
    · simp only [if_pos hdom] at hx
      simp [returnedResults] at hx
    · simp only [if_neg hdom] at hx
      cases hbuf : makeBuf a b with
      | error e =>
        simp only [hbuf] at hx
        simp [returnedResults] at hx
      | ok buf =>
        simp only [hbuf] at hx
        cases hrs : runSamples csm
            (eps / (2 * (statistics.length : ℚ) * (11 / 10)))
            (mathLog (eps / (2 * (statistics.length : ℚ) * (11 / 10)) / 10))
            log a.length b.length (actualDataResults statValue statistics)
            ⟨fun _ => ⟨0, 0, 0⟩, [], 0, 250,
              if log then
                [.actual (actualDataResults statValue statistics)]
              else [], none⟩ samples with
        | error e =>
          simp only [hrs] at hx
          simp [returnedResults] at hx
        | ok st =>
          simp only [hrs] at hx
          cases hfin : st.finished with
          | none => simp [returnedResults, hfin] at hx
          | some l =>
            simp only [returnedResults, hfin] at hx
            have hgood := runSamples_ret_inv csm
              (eps / (2 * (statistics.length : ℚ) * (11 / 10)))
              (mathLog (eps / (2 * (statistics.length : ℚ) * (11 / 10)) /
                10))
              log a.length b.length (actualDataResults statValue statistics)
              (fun r => (r.judgement = -1 ∨ r.judgement = 0 ∨
                r.judgement = 1) ∧ 0 < r.num_trials)
              (fun name mc actual lte gte trials evs r h =>
                significance_test_ok_result csm _ _ name mc a.length b.length
                  actual lte gte trials log evs r h)
              samples
              ⟨fun _ => ⟨0, 0, 0⟩, [], 0, 250,
                if log then
                  [.actual (actualDataResults statValue statistics)]
                else [], none⟩ st hrs
              (fun y hy => absurd hy (List.not_mem_nil y))
              (fun l' hl' => Option.noConfusion hl')
            exact hgood.2 l hfin x hx

/-! ## Claim theorems -/

/-- C8: if the input statistics list is empty, `exact_test` returns an
empty result map immediately: no error, no log output, no actual-statistic
computation and no worker spawning (empty effect trace), for any inputs
and any stream. -/
theorem exact_test_empty_statistics (csm : Csm) (mathLog : ℚ → ℚ)
    (statValue : Statistic → ℚ) (a b : List ℕ) (eps : ℚ) (log : Bool)
    (samples : List (List (String × ℚ))) :
    exact_test csm mathLog statValue a b [] eps log samples =
      (.ok (some [], []), []) := rfl

/-- C6: in the parallel generator of `exact_test_sampler.py`, the batch
size starts at `INITIAL_BATCH_SIZE = 10`, is multiplied by
`BATCH_SIZE_GROWTH_FACTOR = 2` (capped at `MAX_BATCH_SIZE = 10^5`) on each
consumer-loop iteration in which some worker completed, is left unchanged
otherwise, and after `k` growth events equals `min (10 * 2^k) 10^5`, hence
always lies in `[10, 10^5]`. -/
theorem parallel_generator_batch_size_growth :
    batchSizeAfter [] = INITIAL_BATCH_SIZE ∧ INITIAL_BATCH_SIZE = 10 ∧
    BATCH_SIZE_GROWTH_FACTOR = 2 ∧ MAX_BATCH_SIZE = 10 ^ 5 ∧
    (∀ cs, batchSizeAfter (cs ++ [true]) =
      min (BATCH_SIZE_GROWTH_FACTOR * batchSizeAfter cs) MAX_BATCH_SIZE) ∧
    (∀ cs, batchSizeAfter (cs ++ [false]) = batchSizeAfter cs) ∧
    (∀ cs, batchSizeAfter cs = min (10 * 2 ^ cs.count true) (10 ^ 5)) ∧
    (∀ cs, 10 ≤ batchSizeAfter cs ∧ batchSizeAfter cs ≤ 10 ^ 5) := by
  have hmax : MAX_BATCH_SIZE = 10 ^ 5 := by norm_num [MAX_BATCH_SIZE]
  refine ⟨rfl, rfl, rfl, hmax, ?_, ?_, ?_, ?_⟩
  · intro cs
    rw [batchSizeAfter_append]
    rfl
  · intro cs
    rw [batchSizeAfter_append]
    rfl
  · intro cs
    rw [batchSizeAfter_closed]
    norm_num
  · intro cs
    rw [batchSizeAfter_closed]
    have h2 : 0 < 2 ^ cs.count true := pow_pos (by norm_num) _
    constructor <;> omega

/-- C7: `_group_statistics_in_plan` is lossless and structural: an empty
input yields an empty plan, the statistics stored in the plan are a
permutation of the input list (so every input statistic appears exactly
once), and every statistic sits in the bucket labelled by its own
`probability_a_lower` and `(a_offset, b_offset)`.  (Determinism holds by
construction: the grouping is a pure function of the ordered input.) -/
theorem group_statistics_lossless :
    group_statistics_in_plan [] = [] ∧
    (∀ stats : List Statistic,
      (planStats (group_statistics_in_plan stats)).Perm stats) ∧
    (∀ (stats : List Statistic) (p : ℚ) (inner : InnerPlan),
      (p, inner) ∈ group_statistics_in_plan stats →
      ∀ (key : ℤ × ℤ) (l : List Statistic), (key, l) ∈ inner →
      ∀ s ∈ l, s.probability_a_lower = p ∧ s.a_offset = key.1 ∧
        s.b_offset = key.2) := by
  refine ⟨rfl, planStats_group, ?_⟩
  intro stats
  exact group_keyed_aux stats []
    (by intro p inner h; simp at h)

/-- Witness for C7 on a concrete two-statistic input. -/
theorem group_statistics_lossless_witness :
    (⟨"a", 0, 0, 0, "f", []⟩ : Statistic).probability_a_lower = (0 : ℚ) ∧
    (⟨"a", 0, 0, 0, "f", []⟩ : Statistic).a_offset = ((0 : ℤ), (0 : ℤ)).1 ∧
    (⟨"a", 0, 0, 0, "f", []⟩ : Statistic).b_offset = ((0 : ℤ), (0 : ℤ)).2 :=
  group_statistics_lossless.2.2
    [⟨"a", 0, 0, 0, "f", []⟩, ⟨"b", 1, 1, 0, "g", []⟩] (0 : ℚ)
    [(((0 : ℤ), (0 : ℤ)), [⟨"a", 0, 0, 0, "f", []⟩])]
    (by decide) ((0 : ℤ), (0 : ℤ)) [⟨"a", 0, 0, 0, "f", []⟩] (by decide)
    ⟨"a", 0, 0, 0, "f", []⟩ (by decide)

/-- C5 (code-bug evidence): when the shuffle kernel reports failure,
`compute_results` executes `raise "Shuffle failed: %s" % message`.
Raising a plain string in Python 3 itself raises
`TypeError: exceptions must derive from BaseException`, so the run does
fail, but the kernel's message ("boom" here) is lost instead of being
surfaced verbatim. -/
theorem shuffle_failure_raises_type_error :
    compute_results (fun _ => (false, "boom")) (fun _ _ _ => 0)
        [(1/2, [(((0 : ℤ), (0 : ℤ)),
          [⟨"x", 1/2, 0, 0, "exact_test_lte_prob", []⟩])])] [] =
      .error (.typeError "exceptions must derive from BaseException") ∧
    pyRaise (.str "Shuffle failed: boom") =
      .typeError "exceptions must derive from BaseException" :=
  ⟨rfl, rfl⟩

/-- C9: whenever `lte_actual + gte_actual ≥ trials > 0` and `eps < 1/2`
(as holds for every reachable accumulator state under the Bonferroni
correction), the two tail conditions cannot hold simultaneously, and
checking the `gte` side before the `lte` side yields exactly the same
outcome, so the −1/+1 judgements are mutually exclusive and the check
order is irrelevant. -/
theorem significance_test_tails_exclusive (csm : Csm) (eps lie : ℚ)
    (name : String) (mc : ℚ) (m n : ℕ) (actual : ℚ) (lte gte trials : ℕ)
    (log : Bool) (hsum : trials ≤ lte + gte) (hpos : 0 < trials)
    (heps : eps < 1 / 2) :
    ¬((lte : ℚ) / (trials : ℚ) < eps ∧ (gte : ℚ) / (trials : ℚ) < eps) ∧
    significance_test csm eps lie name mc m n actual lte gte trials log =
      significance_test_gt_first csm eps lie name mc m n actual lte gte
        trials log := by
  have ht : (0 : ℚ) < (trials : ℚ) := by exact_mod_cast hpos
  have hex : ¬((lte : ℚ) / (trials : ℚ) < eps ∧
      (gte : ℚ) / (trials : ℚ) < eps) := by
    rintro ⟨ha, hb⟩
    rw [div_lt_iff₀ ht] at ha hb
    have hsum' : (trials : ℚ) ≤ (lte : ℚ) + (gte : ℚ) := by
      exact_mod_cast hsum
    have h3 : eps * (trials : ℚ) < 1 / 2 * (trials : ℚ) :=
      mul_lt_mul_of_pos_right heps ht
    linarith
  have ht0 : ¬ trials = 0 := by omega
  refine ⟨hex, ?_⟩
  by_cases h1 : ((lte : ℚ) / (trials : ℚ) < eps) <;>
  by_cases h2 : ((gte : ℚ) / (trials : ℚ) < eps)
  · exact absurd ⟨h1, h2⟩ hex
  all_goals
    by_cases hlt : (csm trials eps lte lie).1 <;>
    by_cases hgt : (csm trials eps gte lie).1 <;>
      simp [significance_test, significance_test_gt_first, hlt, hgt, h1, h2,
        ht0]

/-- C4 counterexample: with two statistics sharing the name "x", eps = 2
(outside (0, 1)) and an observation equal to 2^63, `exact_test` raises no
error at all: the pre-sampling phase completes and the run proceeds.  The
claim says each of these inputs fails immediately with a descriptive
error. -/
theorem exact_test_no_validation_counterexample :
    (exact_test (fun _ _ _ _ => (false, 0)) (fun q => q) (fun _ => 0)
        [2 ^ 63] [0]
        [⟨"x", 0, 0, 0, "f", []⟩, ⟨"x", 0, 0, 0, "f", []⟩] 2
        false []).1.map Prod.fst = .ok none :=
  exact_test_prefix_ok (fun _ _ _ _ => (false, 0)) (fun q => q) (fun _ => 0)
    [2 ^ 63] [0] [⟨"x", 0, 0, 0, "f", []⟩, ⟨"x", 0, 0, 0, "f", []⟩] 2 false
    (List.cons_ne_nil _ _) two_pos (by decide)

/-- C4 (amended): `exact_test` performs no input validation.  For any
statistic list (duplicate names included), any eps > 0 (values ≥ 1
included) and observations < 2^64 (so 2^63 ≤ x < 2^64 included), the
pre-sampling phase completes without error; the empty-statistics case
returns the empty map, every other case proceeds to sampling.  (The only
failures are incidental: cffi's OverflowError for observations ≥ 2^64 and
`math.log`'s domain error for eps ≤ 0.) -/
theorem exact_test_no_validation (csm : Csm) (mathLog : ℚ → ℚ)
    (statValue : Statistic → ℚ) (a b : List ℕ) (statistics : List Statistic)
    (eps : ℚ) (log : Bool) (hpos : 0 < eps)
    (hobs : ∀ x ∈ a ++ b, x < 2 ^ 64) :
    (exact_test csm mathLog statValue a b statistics eps log []).1.map
        Prod.fst =
      .ok (if statistics.isEmpty then some [] else none) := by
  cases statistics with
  | nil => rfl
  | cons s rest =>
    rw [exact_test_prefix_ok csm mathLog statValue a b (s :: rest) eps log
      (List.cons_ne_nil _ _) hpos hobs]
    simp

/-- Witness for C4's amended theorem at a concrete invalid-per-the-claim
input. -/
theorem exact_test_no_validation_witness :
    (exact_test (fun _ _ _ _ => (false, 0)) (fun q => q) (fun _ => 0)
        [2 ^ 63] [0] [⟨"y", 0, 0, 0, "f", []⟩, ⟨"y", 0, 0, 0, "f", []⟩] 2
        false []).1.map Prod.fst =
      .ok (if ([⟨"y", 0, 0, 0, "f", []⟩,
        ⟨"y", 0, 0, 0, "f", []⟩] : List Statistic).isEmpty then some []
        else none) :=
  exact_test_no_validation (fun _ _ _ _ => (false, 0)) (fun q => q)
    (fun _ => 0) [2 ^ 63] [0]
    [⟨"y", 0, 0, 0, "f", []⟩, ⟨"y", 0, 0, 0, "f", []⟩] 2 false two_pos
    (by decide)

/-- C2: before the sampling loop `exact_test` replaces the caller's eps by
`eps / (2 · |statistics| · 1.1)` and sets
`log_inner_eps = log(eps / 10)` with eps already corrected, and these two
corrected values are the only arguments at which the opaque `csm`
primitive is ever consulted: two `csm` implementations that agree at them
make the whole run agree, whatever they do elsewhere. -/
theorem exact_test_eps_correction_csm_calls (mathLog : ℚ → ℚ)
    (statValue : Statistic → ℚ) (a b : List ℕ) (statistics : List Statistic)
    (eps : ℚ) (log : Bool) (samples : List (List (String × ℚ)))
    (csm₁ csm₂ : Csm)
    (h : ∀ t k,
      csm₁ t (eps / (2 * (statistics.length : ℚ) * (11 / 10))) k
          (mathLog ((eps / (2 * (statistics.length : ℚ) * (11 / 10))) /
            10)) =
        csm₂ t (eps / (2 * (statistics.length : ℚ) * (11 / 10))) k
          (mathLog ((eps / (2 * (statistics.length : ℚ) * (11 / 10))) /
            10))) :
    exact_test csm₁ mathLog statValue a b statistics eps log samples =
      exact_test csm₂ mathLog statValue a b statistics eps log samples := by
  simp only [exact_test]
  by_cases hemp : statistics.isEmpty
  · simp only [if_pos hemp]
  · simp only [if_neg hemp]
    by_cases hdom :
        eps / (2 * (statistics.length : ℚ) * (11 / 10)) / 10 ≤ 0
    · simp only [if_pos hdom]
    · simp only [if_neg hdom]
      cases hbuf : makeBuf a b with
      | error e => simp only [hbuf]
      | ok buf =>
        simp only [hbuf]
        simp only [runSamples_csm_congr csm₁ csm₂ _ _ h]

/-- Witness for C2 at a concrete input. -/
theorem exact_test_eps_correction_csm_calls_witness :
    exact_test (fun _ _ _ _ => (false, 0)) (fun q => q) (fun _ => 0) [1] [2]
        [⟨"x", 0, 0, 0, "f", []⟩] 1 false [[("x", 0)]] =
      exact_test (fun _ _ _ _ => (false, 0)) (fun q => q) (fun _ => 0) [1]
        [2] [⟨"x", 0, 0, 0, "f", []⟩] 1 false [[("x", 0)]] :=
  exact_test_eps_correction_csm_calls (fun q => q) (fun _ => 0) [1] [2]
    [⟨"x", 0, 0, 0, "f", []⟩] 1 false [[("x", 0)]]
    (fun _ _ _ _ => (false, 0)) (fun _ _ _ _ => (false, 0))
    (fun _ _ => rfl)

/-- Witness for C9 at a concrete reachable accumulator state. -/
theorem significance_test_tails_exclusive_witness :
    significance_test (fun _ _ _ _ => (true, 0)) 0 0 "s" 0 1 1 5 250 0
        250 false =
      significance_test_gt_first (fun _ _ _ _ => (true, 0)) 0 0 "s" 0
        1 1 5 250 0 250 false :=
  (significance_test_tails_exclusive (fun _ _ _ _ => (true, 0)) 0 0 "s"
    0 1 1 5 250 0 250 false (by decide) (by decide) one_half_pos).2

/-- C10: the result map returned by `exact_test` does not depend on the
log argument: on the same inputs and the same consumed resample stream,
a run with a log sink and a run with `log=None` return the same mapping
(and reach the same milestones); the log parameter only changes the
emitted log events. -/
theorem exact_test_log_independent (csm : Csm) (mathLog : ℚ → ℚ)
    (statValue : Statistic → ℚ) (a b : List ℕ) (statistics : List Statistic)
    (eps : ℚ) (samples : List (List (String × ℚ))) :
    (exact_test csm mathLog statValue a b statistics eps true samples).1.map
        Prod.fst =
      (exact_test csm mathLog statValue a b statistics eps false
          samples).1.map Prod.fst ∧
    (exact_test csm mathLog statValue a b statistics eps true samples).2 =
      (exact_test csm mathLog statValue a b statistics eps false
          samples).2 := by
  simp only [exact_test, if_true, Bool.false_eq_true, if_false,
    eq_self_iff_true]
  by_cases hemp : statistics.isEmpty
  · simp only [if_pos hemp]
    exact ⟨trivial, trivial⟩
  · simp only [if_neg hemp]
    by_cases hdom : eps / (2 * (statistics.length : ℚ) * (11 / 10)) / 10 ≤ 0
    · simp only [if_pos hdom]
      exact ⟨trivial, trivial⟩
    · simp only [if_neg hdom]
      cases hbuf : makeBuf a b with
      | error e =>
        simp only [hbuf]
        exact ⟨trivial, trivial⟩
      | ok buf =>
        simp only [hbuf]
        have hstrip := runSamples_log_strip csm
          (eps / (2 * (statistics.length : ℚ) * (11 / 10)))
          (mathLog (eps / (2 * (statistics.length : ℚ) * (11 / 10)) / 10))
          true false a.length b.length
          (actualDataResults statValue statistics) samples
          ⟨fun _ => ⟨0, 0, 0⟩, [], 0, 250,
            [.actual (actualDataResults statValue statistics)], none⟩
          ⟨fun _ => ⟨0, 0, 0⟩, [], 0, 250, [], none⟩ rfl
        cases h1 : runSamples csm
            (eps / (2 * (statistics.length : ℚ) * (11 / 10)))
            (mathLog (eps / (2 * (statistics.length : ℚ) * (11 / 10)) / 10))
            true a.length b.length (actualDataResults statValue statistics)
            ⟨fun _ => ⟨0, 0, 0⟩, [], 0, 250,
              [.actual (actualDataResults statValue statistics)], none⟩
            samples with
        | error e₁ =>
          cases h2 : runSamples csm
              (eps / (2 * (statistics.length : ℚ) * (11 / 10)))
              (mathLog (eps / (2 * (statistics.length : ℚ) * (11 / 10)) /
                10))
              false a.length b.length
              (actualDataResults statValue statistics)
              ⟨fun _ => ⟨0, 0, 0⟩, [], 0, 250, [], none⟩ samples with
          | error e₂ =>
            rw [h1, h2] at hstrip
            simp [Except.map] at hstrip
            simp [h1, h2, hstrip, Except.map]
          | ok st₂ =>
            rw [h1, h2] at hstrip
            simp [Except.map] at hstrip
        | ok st₁ =>
          cases h2 : runSamples csm
              (eps / (2 * (statistics.length : ℚ) * (11 / 10)))
              (mathLog (eps / (2 * (statistics.length : ℚ) * (11 / 10)) /
                10))
              false a.length b.length
              (actualDataResults statValue statistics)
              ⟨fun _ => ⟨0, 0, 0⟩, [], 0, 250, [], none⟩ samples with
          | error e₂ =>
            rw [h1, h2] at hstrip
            simp [Except.map] at hstrip
          | ok st₂ =>
            rw [h1, h2] at hstrip
            simp [Except.map] at hstrip
            have hfin : st₁.finished = st₂.finished := by
              have := congrArg LoopState.finished hstrip
              simpa [stripEvents] using this
            simp [h1, h2, Except.map, hfin]

/-- C1: `_significance_test` follows the spec's decision rule — for every
positive trial count (written `trials + 1` so that positivity is
structural), the written judgement equals the spec's rule `specJudgement`
applied to the two CSM significance flags and tail fractions; and every
`Result` in the map returned by `exact_test` has judgement in
{−1, 0, +1} and a positive trial count. -/
theorem exact_test_judgement_rule :
    (∀ (csm : Csm) (eps lie : ℚ) (name : String) (mc : ℚ) (m n : ℕ)
      (actual : ℚ) (lte gte trials : ℕ) (log : Bool),
      (significance_test csm eps lie name mc m n actual lte gte (trials + 1)
          log).map Prod.snd =
        .ok ((specJudgement (csm (trials + 1) eps lte lie).1
            (csm (trials + 1) eps gte lie).1
            ((lte : ℚ) / ((trials + 1 : ℕ) : ℚ))
            ((gte : ℚ) / ((trials + 1 : ℕ) : ℚ)) eps).map
          (fun j => (⟨actual, j, m, n, trials + 1⟩ : Result)))) ∧
    (∀ (csm : Csm) (mathLog : ℚ → ℚ) (statValue : Statistic → ℚ)
      (a b : List ℕ) (statistics : List Statistic) (eps : ℚ) (log : Bool)
      (samples : List (List (String × ℚ))),
      (returnedResults (exact_test csm mathLog statValue a b statistics eps
          log samples)).all
        (fun x => decide (x.2.judgement = -1 ∨ x.2.judgement = 0 ∨
            x.2.judgement = 1) && decide (0 < x.2.num_trials)) = true) := by
  constructor
  · intro csm eps lie name mc m n actual lte gte trials log
    exact significance_test_spec_rule csm eps lie name mc m n actual lte gte
      (trials + 1) log (Nat.succ_pos trials)
  · intro csm mathLog statValue a b statistics eps log samples
    rw [List.all_eq_true]
    intro x hx
    have h := exact_test_returned_good csm mathLog statValue a b statistics
      eps log samples x hx
    simp only [Bool.and_eq_true, decide_eq_true_eq]
    exact h

/-- C3: the per-resample update increments `lte_actual` when
`value ≤ actual`, `gte_actual` when `value ≥ actual` (a tie increments
both) and always increments `trials`; at every inspection point of the
decision loop every accumulator satisfies
`0 ≤ lte_actual ≤ trials`, `0 ≤ gte_actual ≤ trials` and
`lte_actual + gte_actual ≥ trials`; and all three fields are
monotonically non-decreasing along the loop. -/
theorem exact_test_accumulator_invariants :
    (∀ (current : Accumulator) (stat actual : ℚ),
      updateAccumulator current stat actual =
        ⟨current.trials + 1,
          current.lte_actual + (if stat ≤ actual then 1 else 0),
          current.gte_actual + (if stat ≥ actual then 1 else 0)⟩) ∧
    (∀ (csm : Csm) (eps lie : ℚ) (log : Bool) (m n : ℕ)
      (actualStats : List (String × ℚ))
      (samples : List (List (String × ℚ))) (st st' : LoopState),
      runSamples csm eps lie log m n actualStats st samples = .ok st' →
      (∀ nm, (st.accs nm).lte_actual ≤ (st.accs nm).trials ∧
        (st.accs nm).gte_actual ≤ (st.accs nm).trials ∧
        (st.accs nm).trials ≤
          (st.accs nm).lte_actual + (st.accs nm).gte_actual) →
      ∀ nm, 0 ≤ (st'.accs nm).lte_actual ∧
        (st'.accs nm).lte_actual ≤ (st'.accs nm).trials ∧
        0 ≤ (st'.accs nm).gte_actual ∧
        (st'.accs nm).gte_actual ≤ (st'.accs nm).trials ∧
        (st'.accs nm).trials ≤
          (st'.accs nm).lte_actual + (st'.accs nm).gte_actual) ∧
    (∀ (csm : Csm) (eps lie : ℚ) (log : Bool) (m n : ℕ)
      (actualStats : List (String × ℚ))
      (samples₁ samples₂ : List (List (String × ℚ)))
      (st st₁ st₂ : LoopState),
      runSamples csm eps lie log m n actualStats st samples₁ = .ok st₁ →
      runSamples csm eps lie log m n actualStats st (samples₁ ++ samples₂) =
        .ok st₂ →
      ∀ nm, (st₁.accs nm).trials ≤ (st₂.accs nm).trials ∧
        (st₁.accs nm).lte_actual ≤ (st₂.accs nm).lte_actual ∧
        (st₁.accs nm).gte_actual ≤ (st₂.accs nm).gte_actual) := by
  refine ⟨updateAccumulator_fields, ?_, ?_⟩
  · intro csm eps lie log m n actualStats samples st st' h hinv nm
    have hi := runSamples_accs_inv csm eps lie log m n actualStats samples st
      st' h hinv nm
    exact ⟨Nat.zero_le _, hi.1, Nat.zero_le _, hi.2.1, hi.2.2⟩
  · intro csm eps lie log m n actualStats samples₁ samples₂ st st₁ st₂ h1 h2
    rw [runSamples_append] at h2
    simp only [h1] at h2
    exact runSamples_accs_mono csm eps lie log m n actualStats samples₂ st₁
      st₂ h2

/-- Witness for C3 at the initial loop state. -/
theorem exact_test_accumulator_invariants_witness :
    (updateAccumulator ⟨0, 0, 0⟩ 0 5 =
      ⟨0 + 1, 0 + (if (0 : ℚ) ≤ 5 then 1 else 0),
        0 + (if (0 : ℚ) ≥ 5 then 1 else 0)⟩) ∧
    (0 ≤ (((⟨fun _ => ⟨0, 0, 0⟩, [], 0, 250, [], none⟩ : LoopState)).accs
        "s").lte_actual ∧
      (((⟨fun _ => ⟨0, 0, 0⟩, [], 0, 250, [], none⟩ : LoopState)).accs
          "s").lte_actual ≤
        (((⟨fun _ => ⟨0, 0, 0⟩, [], 0, 250, [], none⟩ : LoopState)).accs
          "s").trials ∧
      0 ≤ (((⟨fun _ => ⟨0, 0, 0⟩, [], 0, 250, [], none⟩ : LoopState)).accs
        "s").gte_actual ∧
      (((⟨fun _ => ⟨0, 0, 0⟩, [], 0, 250, [], none⟩ : LoopState)).accs
          "s").gte_actual ≤
        (((⟨fun _ => ⟨0, 0, 0⟩, [], 0, 250, [], none⟩ : LoopState)).accs
          "s").trials ∧
      (((⟨fun _ => ⟨0, 0, 0⟩, [], 0, 250, [], none⟩ : LoopState)).accs
          "s").trials ≤
        (((⟨fun _ => ⟨0, 0, 0⟩, [], 0, 250, [], none⟩ : LoopState)).accs
            "s").lte_actual +
          (((⟨fun _ => ⟨0, 0, 0⟩, [], 0, 250, [], none⟩ : LoopState)).accs
            "s").gte_actual) :=
  ⟨exact_test_accumulator_invariants.1 ⟨0, 0, 0⟩ 0 5,
    exact_test_accumulator_invariants.2.1 (fun _ _ _ _ => (false, 0)) 0 0
      false 0 0 [] [] ⟨fun _ => ⟨0, 0, 0⟩, [], 0, 250, [], none⟩
      ⟨fun _ => ⟨0, 0, 0⟩, [], 0, 250, [], none⟩ rfl
      (fun nm => ⟨Nat.le_refl 0, Nat.le_refl 0, Nat.le_refl 0⟩) "s"⟩

end ExactTest
